import Mathlib

/-!
Verification of the A* Rubik-cube solver (`A_star_solver.py`).

The cube state is the value returned by `RubCube.get_State()`: a nested
list of 6 faces, each a 3×3 grid of color numbers (0–5 on a well-formed
cube).  The heuristic, the search-node bookkeeping and the `solve` driver
are embedded below directly from the source.  The cube-rotation model
(`rub_cube.py`, vendored from the external PyRubikSim project) is not part
of the analysed source, so `solve` is parameterised by an arbitrary
rotation action `rot : Move → CubeState → CubeState`, and the canonical
solved configuration is modelled from the specification.
-/

set_option maxRecDepth 4000

/-- A cube state as produced by `RubCube.get_State()`: 6 faces, each a
list of 3 rows of 3 facelet colors. -/
abbrev CubeState := List (List (List ℕ))

/-- Axis of a rotation: the Python code uses the strings `'x'`, `'y'`, `'z'`. -/
inductive Axis : Type where
  | x : Axis
  | y : Axis
  | z : Axis
deriving DecidableEq

/-- A move `(axis, layer, sense)` exactly as the tuples built in
`get_next_states`: layer ∈ {0, 2}, sense ∈ {-1, 1, 2}. -/
abbrev Move := Axis × ℤ × ℤ

/-- Table `cube_map` from the source: for each of the 54 facelet positions, the
id of the cubie (piece) owning that facelet; corners are 0–7, edges 8–19,
centers 20–25. -/
def cube_map : List (List (List ℕ)) :=
  [[[0,  8, 1], [ 9, 20, 10], [2, 11, 3]],
   [[1, 12, 4], [10, 21, 13], [3, 14, 5]],
   [[4, 15, 6], [13, 22, 16], [5, 17, 7]],
   [[6, 18, 0], [16, 23,  9], [7, 19, 2]],
   [[0, 18, 6], [ 8, 24, 15], [1, 12, 4]],
   [[3, 14, 5], [11, 25, 17], [2, 19, 7]]]

/-- Table `dict_cubies` from the source: the solved colors of each cubie id 0–19
(3 colors for corners, 2 for edges).  The Python dict has no key ≥ 20 and
is only ever indexed with ids 0–19 (guarded by `in range(0, 20)`); we
return `[]` outside the dict's domain. -/
def dict_cubies : ℕ → List ℕ
  | 0 => [0, 3, 4] | 1 => [0, 1, 4] | 2 => [0, 3, 5] | 3 => [0, 1, 5]
  | 4 => [1, 2, 4] | 5 => [1, 2, 5] | 6 => [2, 3, 4] | 7 => [2, 3, 5]
  | 8 => [0, 4] | 9 => [0, 3] | 10 => [0, 1] | 11 => [0, 5]
  | 12 => [1, 4] | 13 => [1, 2] | 14 => [1, 5] | 15 => [2, 4]
  | 16 => [2, 3] | 17 => [2, 5] | 18 => [3, 4] | 19 => [3, 5]
  | _ => []

/-- The list comprehension at the top of `heuristic`:
`[[pair[0], pair[1]] for face in zip(cube_map, state)
  for row in zip(face[0], face[1]) for pair in zip(row[0], row[1])]` —
each element pairs a cubie id from `cube_map` with the color currently at
that position. -/
def list_of_pairs (state : CubeState) : List (ℕ × ℕ) :=
  (cube_map.zip state).flatMap (fun face =>
    (face.1.zip face.2).flatMap (fun row => row.1.zip row.2))

/-- Embeds `AStarSolver.correct_position`: a cubie (id < 20) is correctly
positioned when every color found at one of its `cube_map` positions
belongs to its solved color set; for other ids the initial `True` is
returned unchanged. -/
def correct_position (pairs : List (ℕ × ℕ)) (cubie : ℕ) : Bool :=
  if cubie < 20 then
    pairs.all (fun couple =>
      if couple.1 = cubie then decide (couple.2 ∈ dict_cubies cubie) else true)
  else
    true

/-- The `for` loop of `AStarSolver.correct_orientation`, with its walking
index `i` into `dict_cubies[cubie]`.  A Python `IndexError` (index `i`
past the end of the color list) is modelled as `none`. -/
def orient_loop (cubie : ℕ) : List (ℕ × ℕ) → ℕ → Option Bool
  | [], _ => some false
  | couple :: rest, i =>
    if couple.1 = cubie then
      match (dict_cubies cubie).get? i with
      | none => none
      | some color => if couple.2 = color then some true else orient_loop cubie rest (i + 1)
    else
      orient_loop cubie rest i

/-- Embeds `AStarSolver.correct_orientation`.  For `cubie ≥ 20` the Python
function falls through its `if` and returns `None`, modelled as `none`. -/
def correct_orientation (pairs : List (ℕ × ℕ)) (cubie : ℕ) : Option Bool :=
  if cubie < 20 then orient_loop cubie pairs 0 else none

/-- Embeds `AStarSolver.moves_for_correct_cubie`: the per-cubie cost looked up
from the position/orientation booleans.  For `cubie ≥ 20` the Python
function returns `None` (its `correct_orientation` call already does). -/
def moves_for_correct_cubie (pairs : List (ℕ × ℕ)) (cubie : ℕ) : Option ℕ := do
  let bool_pos := correct_position pairs cubie
  let bool_orient ← correct_orientation pairs cubie
  if cubie < 8 then
    pure (if bool_orient then (if bool_pos then 0 else 1) else 2)
  else if cubie < 20 then
    pure (if bool_pos then (if bool_orient then 0 else 3)
          else (if bool_orient then 1 else 2))
  else
    none

/-- Embeds `AStarSolver.heuristic`: sum the per-cubie costs for ids 0–19 and
divide by the tuning divisor (real division in Python, hence ℚ). -/
def heuristic (state : CubeState) (divisor : ℚ) : Option ℚ := do
  let pairs := list_of_pairs state
  let sum_moves ← (List.range 20).foldlM
    (fun acc i => do
      let m ← moves_for_correct_cubie pairs i
      pure (acc + m)) 0
  pure ((sum_moves : ℚ) / divisor)

/-- Modelled from the spec: the canonical solved state returned by
`rub_cube.RubCube(3).get_State()` — "every face uniformly one color",
face `i` holding color `i` (the color convention `dict_cubies` encodes). -/
def solvedState : CubeState :=
  [[[0, 0, 0], [0, 0, 0], [0, 0, 0]],
   [[1, 1, 1], [1, 1, 1], [1, 1, 1]],
   [[2, 2, 2], [2, 2, 2], [2, 2, 2]],
   [[3, 3, 3], [3, 3, 3], [3, 3, 3]],
   [[4, 4, 4], [4, 4, 4], [4, 4, 4]],
   [[5, 5, 5], [5, 5, 5], [5, 5, 5]]]

/-- A degenerate facelet configuration: all 54 facelets hold color 0.
Every legal rotation permutes facelet colors, so every rotation fixes
this state; it is a well-shaped but unsolvable input. -/
def uniform0 : CubeState :=
  [[[0, 0, 0], [0, 0, 0], [0, 0, 0]],
   [[0, 0, 0], [0, 0, 0], [0, 0, 0]],
   [[0, 0, 0], [0, 0, 0], [0, 0, 0]],
   [[0, 0, 0], [0, 0, 0], [0, 0, 0]],
   [[0, 0, 0], [0, 0, 0], [0, 0, 0]],
   [[0, 0, 0], [0, 0, 0], [0, 0, 0]]]

/-- Shape validity: 6 faces of 3×3 facelets, i.e. exactly 54 facelets. -/
def shapeOK (s : CubeState) : Bool :=
  s.length = 6 && s.all (fun face => face.length = 3 && face.all (fun row => row.length = 3))

/-- Full validity per the spec: 54 facelets, every color in range (< 6). -/
def validState (s : CubeState) : Bool :=
  shapeOK s && s.all (fun face => face.all (fun row => row.all (fun c => c < 6)))

/-! ### Totality of the orientation scan

`correct_orientation` walks an index `i` through `dict_cubies[cubie]`,
advancing it once per occurrence of `cubie` among the first components of
the pair list.  The first components of `list_of_pairs state` always form
a sublist of the flattened `cube_map`, in which each corner id occurs 3
times and each edge id twice — exactly the length of its color list — so
the lookup `dict_cubies[cubie][i]` never goes out of range. -/

/-- The flattened `cube_map`: the cubie ids of the 54 positions in scan
order. -/
def cube_map_ids : List ℕ := cube_map.flatMap (fun face => face.flatMap (fun row => row))

lemma map_fst_zip_sublist {α β : Type} :
    ∀ (l : List α) (l2 : List β), List.Sublist (((l.zip l2).map Prod.fst)) l := by
  intro l
  induction l with
  | nil => intro l2; simp
  | cons a rest ih =>
    intro l2
    cases l2 with
    | nil => simp
    | cons b rest2 =>
      simpa using List.Sublist.cons₂ a (ih rest2)

lemma zip_flatMap_sublist {α β γ : Type} (f : α → List γ) (g : α → β → List γ)
    (hfg : ∀ a b, List.Sublist (g a b) (f a)) :
    ∀ (l : List α) (l2 : List β),
      List.Sublist ((l.zip l2).flatMap (fun p => g p.1 p.2)) (l.flatMap f) := by
  intro l
  induction l with
  | nil => intro l2; simp
  | cons a rest ih =>
    intro l2
    cases l2 with
    | nil => simp
    | cons b rest2 =>
      simpa using List.Sublist.append (hfg a b) (ih rest2)

lemma list_of_pairs_fst_sublist (state : CubeState) :
    List.Sublist ((list_of_pairs state).map Prod.fst) cube_map_ids := by
  have hinner : ∀ (face : List (List ℕ)) (sface : List (List ℕ)),
      List.Sublist (((face.zip sface).flatMap (fun row => (row.1.zip row.2).map Prod.fst)))
        (face.flatMap (fun row => row)) := by
    intro face sface
    exact zip_flatMap_sublist (fun row => row) (fun row srow => (row.zip srow).map Prod.fst)
      (fun row srow => map_fst_zip_sublist row srow) face sface
  have h := zip_flatMap_sublist (fun face => face.flatMap (fun row => row))
    (fun face sface => (face.zip sface).flatMap (fun row => (row.1.zip row.2).map Prod.fst))
    hinner cube_map state
  have heq : (list_of_pairs state).map Prod.fst
      = (cube_map.zip state).flatMap
          (fun p => (p.1.zip p.2).flatMap (fun row => (row.1.zip row.2).map Prod.fst)) := by
    simp [list_of_pairs, List.map_flatMap]
  rw [heq]
  exact h

/-- In the flattened `cube_map`, no cubie id 0–19 occurs more often than
the length of its solved color list (corners: 3 occurrences, 3 colors;
edges: 2 occurrences, 2 colors). -/
lemma count_cube_map_ids : ∀ cubie < 20,
    cube_map_ids.count cubie ≤ (dict_cubies cubie).length := by decide

lemma orient_loop_isSome (cubie : ℕ) :
    ∀ (pairs : List (ℕ × ℕ)) (i : ℕ),
      i + pairs.countP (fun c => decide (c.1 = cubie)) ≤ (dict_cubies cubie).length →
      (orient_loop cubie pairs i).isSome := by
  intro pairs
  induction pairs with
  | nil => intro i _; simp [orient_loop]
  | cons couple rest ih =>
    intro i hle
    by_cases hc : couple.1 = cubie
    · have hcount : (couple :: rest).countP (fun c => decide (c.1 = cubie))
          = rest.countP (fun c => decide (c.1 = cubie)) + 1 := by
        simp [List.countP_cons, hc]
      rw [hcount] at hle
      have hi : i < (dict_cubies cubie).length := by omega
      cases hcolor : (dict_cubies cubie)[i]? with
      | none => exact absurd (List.getElem?_eq_none_iff.mp hcolor) (by omega)
      | some color =>
        by_cases hcc : couple.2 = color
        · simp [orient_loop, hc, hcolor, hcc]
        · have := ih (i + 1) (by omega)
          simp [orient_loop, hc, hcolor, hcc, this]
    · have hcount : (couple :: rest).countP (fun c => decide (c.1 = cubie))
          = rest.countP (fun c => decide (c.1 = cubie)) := by
        simp [List.countP_cons, hc]
      rw [hcount] at hle
      have := ih i hle
      simp [orient_loop, hc, this]

/-- For every state (of any shape) and every cubie id 0–19 the
orientation scan never indexes the color list out of range. -/
lemma correct_orientation_isSome (state : CubeState) (cubie : ℕ) (h20 : cubie < 20) :
    (correct_orientation (list_of_pairs state) cubie).isSome := by
  have hsub := list_of_pairs_fst_sublist state
  have hcount : (list_of_pairs state).countP (fun c => decide (c.1 = cubie))
      ≤ cube_map_ids.count cubie := by
    have h1 : (list_of_pairs state).countP (fun c => decide (c.1 = cubie))
        = ((list_of_pairs state).map Prod.fst).countP (fun a => decide (a = cubie)) := by
      rw [List.countP_map]
      rfl
    rw [h1, List.count]
    exact hsub.countP_le _
  have := count_cube_map_ids cubie h20
  unfold correct_orientation
  rw [if_pos h20]
  exact orient_loop_isSome cubie (list_of_pairs state) 0 (by omega)

/-! ### The heuristic as the spec's per-piece cost table -/

/-- The spec's corner cost table: oriented & positioned → 0; oriented &
mispositioned → 1; not oriented (either position state) → 2. -/
def cornerCost (oriented positioned : Bool) : ℕ :=
  if oriented then (if positioned then 0 else 1) else 2

/-- The spec's edge cost table: positioned & oriented → 0; positioned &
not oriented → 3; mispositioned & oriented → 1; mispositioned & not
oriented → 2. -/
def edgeCost (positioned oriented : Bool) : ℕ :=
  if positioned then (if oriented then 0 else 3)
  else (if oriented then 1 else 2)

lemma moves_eq_table (state : CubeState) (i : ℕ) (h20 : i < 20) :
    moves_for_correct_cubie (list_of_pairs state) i
      = some (if i < 8 then
                cornerCost ((correct_orientation (list_of_pairs state) i).getD false)
                  (correct_position (list_of_pairs state) i)
              else
                edgeCost (correct_position (list_of_pairs state) i)
                  ((correct_orientation (list_of_pairs state) i).getD false)) := by
  obtain ⟨b, hb⟩ := Option.isSome_iff_exists.mp (correct_orientation_isSome state i h20)
  by_cases h8 : i < 8 <;>
    simp [moves_for_correct_cubie, hb, h8, h20, cornerCost, edgeCost]

/-- The total cost summed by `heuristic` before the division. -/
def sum_moves_val (state : CubeState) : ℕ :=
  ((List.range 20).map
    (fun i => (moves_for_correct_cubie (list_of_pairs state) i).getD 0)).sum

lemma foldlM_moves (pairs : List (ℕ × ℕ)) :
    ∀ (l : List ℕ) (a : ℕ),
      (∀ i ∈ l, (moves_for_correct_cubie pairs i).isSome) →
      (l.foldlM (fun acc i => do
          let m ← moves_for_correct_cubie pairs i
          pure (acc + m)) a : Option ℕ)
        = some (a + (l.map (fun i => (moves_for_correct_cubie pairs i).getD 0)).sum) := by
  intro l
  induction l with
  | nil => intro a _; simp
  | cons j rest ih =>
    intro a hall
    obtain ⟨m, hm⟩ := Option.isSome_iff_exists.mp (hall j (by simp))
    have hrest : ∀ i ∈ rest, (moves_for_correct_cubie pairs i).isSome :=
      fun i hi => hall i (by simp [hi])
    rw [List.foldlM_cons, hm]
    show (List.foldlM (fun acc i => do
        let m ← moves_for_correct_cubie pairs i
        pure (acc + m)) (a + m) rest : Option ℕ) = _
    rw [ih (a + m) hrest]
    simp [hm, add_assoc]

/-- Lemma: `heuristic` never fails and always returns the summed cost divided by
the divisor. -/
lemma heuristic_eq (state : CubeState) (divisor : ℚ) :
    heuristic state divisor = some ((sum_moves_val state : ℚ) / divisor) := by
  have hall : ∀ i ∈ List.range 20,
      (moves_for_correct_cubie (list_of_pairs state) i).isSome := by
    intro i hi
    rw [moves_eq_table state i (List.mem_range.mp hi)]
    rfl
  simp only [heuristic]
  rw [foldlM_moves _ _ 0 hall]
  simp [sum_moves_val]

/-- Claim C2: for every facelet state and positive divisor,
`heuristic(state, divisor)` equals the sum over piece ids 0–19 of the
per-piece cost determined by the position and orientation booleans —
corners (0–7) via the corner table, edges (8–19) via the edge table —
divided by the divisor. -/
theorem claim_C2 (state : CubeState) (divisor : ℚ) (_hd : 0 < divisor) :
    heuristic state divisor
      = some ((((List.range 20).map (fun i =>
          if i < 8 then
            cornerCost ((correct_orientation (list_of_pairs state) i).getD false)
              (correct_position (list_of_pairs state) i)
          else
            edgeCost (correct_position (list_of_pairs state) i)
              ((correct_orientation (list_of_pairs state) i).getD false))).sum : ℚ)
          / divisor) := by
  have hsum : sum_moves_val state
      = ((List.range 20).map (fun i =>
          if i < 8 then
            cornerCost ((correct_orientation (list_of_pairs state) i).getD false)
              (correct_position (list_of_pairs state) i)
          else
            edgeCost (correct_position (list_of_pairs state) i)
              ((correct_orientation (list_of_pairs state) i).getD false))).sum := by
    unfold sum_moves_val
    refine congrArg List.sum (List.map_congr_left ?_)
    intro i hi
    rw [moves_eq_table state i (List.mem_range.mp hi)]
    rfl
  rw [heuristic_eq, hsum]

/-- Witness for C2 at the solved state and the default divisor 5. -/
theorem claim_C2_witness :
    (0 : ℚ) < 5 ∧ heuristic solvedState 5
      = some ((((List.range 20).map (fun i =>
          if i < 8 then
            cornerCost ((correct_orientation (list_of_pairs solvedState) i).getD false)
              (correct_position (list_of_pairs solvedState) i)
          else
            edgeCost (correct_position (list_of_pairs solvedState) i)
              ((correct_orientation (list_of_pairs solvedState) i).getD false))).sum : ℚ)
          / 5) :=
  ⟨by norm_num, claim_C2 solvedState 5 (by norm_num)⟩

/-- Claim C3: for every valid facelet state (54 facelets, colors in
range) and the default divisor 5, the heuristic is defined and
non-negative, and the heuristic of the canonical solved state is 0. -/
theorem claim_C3 :
    (∀ s : CubeState, validState s = true → ∃ q, heuristic s 5 = some q ∧ 0 ≤ q)
    ∧ heuristic solvedState 5 = some 0 := by
  constructor
  · intro s _
    exact ⟨(sum_moves_val s : ℚ) / 5, heuristic_eq s 5, by positivity⟩
  · rw [heuristic_eq]
    norm_num [show sum_moves_val solvedState = 0 from by decide]

/-- Witness for C3's quantified part at the all-zero (valid) state. -/
theorem claim_C3_witness :
    validState uniform0 = true ∧ ∃ q, heuristic uniform0 5 = some q ∧ 0 ≤ q :=
  ⟨by decide, claim_C3.1 uniform0 (by decide)⟩

/-- Claim C9: for every piece id 0–19 and every 54-facelet state,
`correct_orientation` terminates without indexing the piece's color list
out of range — every lookup `dict_cubies[cubie][i]` is in bounds, so the
scan returns a boolean rather than failing. -/
theorem claim_C9 (state : CubeState) (cubie : ℕ)
    (_hs : shapeOK state = true) (h20 : cubie < 20) :
    (correct_orientation (list_of_pairs state) cubie).isSome = true :=
  correct_orientation_isSome state cubie h20

/-- Witness for C9 at the solved state and corner 0. -/
theorem claim_C9_witness :
    shapeOK solvedState = true ∧ 0 < 20
    ∧ (correct_orientation (list_of_pairs solvedState) 0).isSome = true :=
  ⟨by decide, by decide, claim_C9 solvedState 0 (by decide) (by decide)⟩

/-! ### Search nodes and the A* driver

`AStarNode` carries the same fields as the Python class; `f` is computed
as `g + h` on construction.  Parents are held by reference in Python and
form finite chains, embedded here as a nested inductive value. -/

inductive AStarNode : Type where
  | mk : (state : CubeState) → (visited : Bool) → (parent : Option AStarNode) →
      (g : ℕ) → (h : ℚ) → (rotation : Option (List Move)) → (f : ℚ) → AStarNode

def AStarNode.state : AStarNode → CubeState
  | .mk s _ _ _ _ _ _ => s

def AStarNode.visited : AStarNode → Bool
  | .mk _ v _ _ _ _ _ => v

def AStarNode.parent : AStarNode → Option AStarNode
  | .mk _ _ p _ _ _ _ => p

def AStarNode.g : AStarNode → ℕ
  | .mk _ _ _ g _ _ _ => g

def AStarNode.h : AStarNode → ℚ
  | .mk _ _ _ _ h _ _ => h

def AStarNode.f : AStarNode → ℚ
  | .mk _ _ _ _ _ _ f => f

def AStarNode.rotation : AStarNode → Option (List Move)
  | .mk _ _ _ _ _ r _ => r

/-- Embeds `AStarNode.__init__`: stores the given fields and sets
`f = g + h`. -/
def AStarNode.make (state : CubeState) (visited : Bool) (parent : Option AStarNode)
    (g : ℕ) (h : ℚ) (rotation : Option (List Move)) : AStarNode :=
  .mk state visited parent g h rotation ((g : ℚ) + h)

/-- Embeds `AStarNode.calculate_cost`: tentative `g` through the given parent
(`parent.g + 1`, or 1 with no parent) and `f = g + self.h`. -/
def AStarNode.calculate_cost (n : AStarNode) (parent : Option AStarNode) : ℕ × ℚ :=
  let g := match parent with
    | some p => p.g + 1
    | none => 1
  (g, (g : ℚ) + n.h)

/-- Rebinding of `self.parent` (plain field assignment). -/
def AStarNode.set_parent : AStarNode → Option AStarNode → AStarNode
  | .mk s v _ g h r f, p => .mk s v p g h r f

/-- Embeds `AStarNode.update_cost`: recompute `self.g, self.f` from the current
parent. -/
def AStarNode.update_cost (n : AStarNode) : AStarNode :=
  match n with
  | .mk s v p _ h r _ =>
    let gf := AStarNode.calculate_cost (.mk s v p 0 h r 0) p
    .mk s v p gf.1 h r gf.2

/-- Embeds `AStarNode.update_parent`: if the tentative `f` through
`cheaper_parent` is strictly smaller than the stored `f`, rebind the
parent and update `g`/`f`; otherwise leave the node unchanged. -/
def AStarNode.update_parent (n : AStarNode) (cheaper_parent : AStarNode) : AStarNode :=
  let f := (n.calculate_cost (some cheaper_parent)).2
  if f < n.f then (n.set_parent (some cheaper_parent)).update_cost else n

/-- The back-walk in `solve`'s solved branch: insert the nodes of the
parent chain in front, stopping at (and excluding) the parentless root. -/
def path_nodes : AStarNode → List AStarNode
  | .mk _ _ none _ _ _ _ => []
  | .mk s v (some p) g h r f => path_nodes p ++ [.mk s v (some p) g h r f]

/-- The mutable pieces of `AStarSolver` as touched by `solve`: the open
queue `Q`, the `visited_nodes` list, the caller-supplied cube's current
state, plus `solve`'s locals `rotations` and `ended`. -/
structure SolveState : Type where
  Q : List AStarNode
  visited_nodes : List AStarNode
  cube : CubeState
  rotations : List AStarNode
  ended : Bool

/-- Embeds `AStarSolver.is_visited`: membership of `node` in `visited_nodes`,
where Python's `in` uses `AStarNode.__eq__`, i.e. state equality. -/
def is_visited (visited_nodes : List AStarNode) (node : AStarNode) : Bool :=
  visited_nodes.any (fun v => decide (v.state = node.state))

/-- Embeds `AStarSolver.get_best_node`: `None` on an empty queue; otherwise the
first node of minimal `f` (Python's `min`) is removed (Python's
`list.remove`, which deletes the first element `==`-equal to it, i.e. the
first with the same state) and returned. -/
def get_best_node (Q : List AStarNode) : Option (AStarNode × List AStarNode) :=
  match Q with
  | [] => none
  | q :: qs =>
    let best_node := qs.foldl (fun acc n => if n.f < acc.f then n else acc) q
    some (best_node, (q :: qs).eraseP (fun v => decide (v.state = best_node.state)))

/-- The 18 moves enumerated by `get_next_states`, in loop order:
axes `x, y, z`; layers `0, 2`; senses `-1, 1, 2`. -/
def all_moves : List Move :=
  [Axis.x, Axis.y, Axis.z].flatMap (fun axis =>
    ([0, 2] : List ℤ).flatMap (fun layer =>
      ([-1, 1, 2] : List ℤ).map (fun sense => (axis, layer, sense))))

/-- Embeds `AStarSolver.get_next_states`: for each of the 18 moves, rotate a
copy of the cube's current state and build a successor node with
`parent = parent`, `g = parent.g + 1` and `h = heuristic(new state)`.
The rotation itself lives in the external `rub_cube` module, abstracted
as `rot`; a failing heuristic propagates as `none`. -/
def get_next_states (rot : Move → CubeState → CubeState) (divisor : ℚ)
    (cube_state : CubeState) (parent : AStarNode) : Option (List AStarNode) :=
  all_moves.foldlM (fun next_states mv => do
    let aux_state := rot mv cube_state
    let h ← heuristic aux_state divisor
    pure (next_states ++
      [AStarNode.make aux_state false (some parent) (parent.g + 1) h (some [mv])])) []

/-- The successor loop in `solve`: a successor not yet visited is
appended to both the queue and the visited list; a visited one gets
`u.update_parent(x)` applied to it — `u` being the freshly built
duplicate, which is then dropped — and the stored collections are
returned unchanged. -/
def expand_successors (x : AStarNode) (QV : List AStarNode × List AStarNode)
    (U : List AStarNode) : List AStarNode × List AStarNode :=
  U.foldl (fun QV u =>
    if is_visited QV.2 u then
      let _dropped := u.update_parent x
      QV
    else
      (QV.1 ++ [u], QV.2 ++ [u])) QV

/-- The `while not ended and len(Q) > 0` loop of `AStarSolver.solve`,
with explicit fuel (`none` = fuel exhausted or an error inside an
iteration).  Each iteration pops the best node, writes its state into
the caller's cube, and either reconstructs the path (goal reached) or
expands the 18 successors. -/
def solve_loop (rot : Move → CubeState → CubeState) (divisor : ℚ) :
    ℕ → SolveState → Option SolveState
  | 0, _ => none
  | fuel + 1, st =>
    if st.ended = false ∧ 0 < st.Q.length then
      match get_best_node st.Q with
      | none => none
      | some (x, Q2) =>
        if x.state = solvedState then
          some { st with Q := Q2, cube := x.state, rotations := path_nodes x, ended := true }
        else
          match get_next_states rot divisor x.state x with
          | none => none
          | some U =>
            solve_loop rot divisor fuel
              { st with
                  Q := (expand_successors x (Q2, st.visited_nodes) U).1
                  visited_nodes := (expand_successors x (Q2, st.visited_nodes) U).2
                  cube := x.state }
    else
      some st

/-- Embeds `AStarSolver.solve` on a solver freshly constructed over a cube
holding `initial_state` (so `Q = visited_nodes = []`): build the root
node with `g = 0` and the placeholder rotation `('x', 0, 0)`, append it
to the queue and the visited list, and run the main loop.  The goal
comparison state (`final_node.state`) is the solved configuration. -/
def solve (rot : Move → CubeState → CubeState) (divisor : ℚ) (fuel : ℕ)
    (initial_state : CubeState) : Option SolveState := do
  let h0 ← heuristic initial_state divisor
  let initial_node := AStarNode.make initial_state false none 0 h0 (some [(Axis.x, 0, 0)])
  solve_loop rot divisor fuel
    { Q := [initial_node], visited_nodes := [initial_node], cube := initial_state,
      rotations := [], ended := false }

/-- The identity action on states: the restriction of any facelet
permutation (hence of every real rotation) to a uniformly colored state.
Used to instantiate the abstract rotation parameter in concrete runs. -/
def rot_fix : Move → CubeState → CubeState := fun _ s => s

/-! ### Relaxation: `update_parent` -/

lemma update_parent_spec (s : CubeState) (v : Bool) (pr : Option AStarNode)
    (g : ℕ) (h f : ℚ) (r : Option (List Move)) (p : AStarNode) :
    AStarNode.update_parent (.mk s v pr g h r f) p
      = if ((p.g + 1 : ℕ) : ℚ) + h < f then
          .mk s v (some p) (p.g + 1) h r (((p.g + 1 : ℕ) : ℚ) + h)
        else
          .mk s v pr g h r f := by
  simp [AStarNode.update_parent, AStarNode.calculate_cost, AStarNode.set_parent,
    AStarNode.update_cost, AStarNode.h, AStarNode.f]

lemma update_parent_f_le (n p : AStarNode) : (n.update_parent p).f ≤ n.f := by
  cases n with
  | mk s v pr g h r f =>
    rw [update_parent_spec]
    by_cases hlt : ((p.g + 1 : ℕ) : ℚ) + h < f
    · rw [if_pos hlt]
      simpa [AStarNode.f] using le_of_lt hlt
    · rw [if_neg hlt]

lemma foldl_update_f_le (ps : List AStarNode) :
    ∀ n : AStarNode, (ps.foldl AStarNode.update_parent n).f ≤ n.f := by
  induction ps with
  | nil => intro n; simp
  | cons p rest ih =>
    intro n
    rw [List.foldl_cons]
    exact le_trans (ih _) (update_parent_f_le n p)

/-- A node whose stored `f` already equals the tentative cost through `x`
(in particular every node freshly constructed by `get_next_states` with
parent `x`) is left unchanged by `update_parent(x)`. -/
lemma update_parent_noop (u x : AStarNode)
    (hf : u.f = ((x.g + 1 : ℕ) : ℚ) + u.h) : u.update_parent x = u := by
  cases u with
  | mk s v pr g h r f =>
    simp only [AStarNode.f, AStarNode.h] at hf
    rw [update_parent_spec, if_neg (by rw [hf]; exact lt_irrefl _)]

/-- Claim C6: over any sequence of `update_parent` calls a node's stored
`f` never increases, and a single call rebinds parent and recomputes
`g`/`f` exactly when the tentative `f` through the candidate
(`candidate.g + 1` plus the node's unchanged `h`) is strictly smaller
than the current `f`, leaving the node untouched otherwise. -/
theorem claim_C6 (n p : AStarNode) (ps : List AStarNode) :
    (ps.foldl AStarNode.update_parent n).f ≤ n.f
    ∧ (((p.g + 1 : ℕ) : ℚ) + n.h < n.f →
        (n.update_parent p).parent = some p ∧ (n.update_parent p).g = p.g + 1
          ∧ (n.update_parent p).h = n.h
          ∧ (n.update_parent p).f = ((p.g + 1 : ℕ) : ℚ) + n.h)
    ∧ (¬ ((p.g + 1 : ℕ) : ℚ) + n.h < n.f → n.update_parent p = n) := by
  refine ⟨foldl_update_f_le ps n, ?_, ?_⟩
  · intro hlt
    cases n with
    | mk s v pr g h r f =>
      rw [update_parent_spec, if_pos (by simpa [AStarNode.h, AStarNode.f] using hlt)]
      simp [AStarNode.parent, AStarNode.g, AStarNode.h, AStarNode.f]
  · intro hnlt
    cases n with
    | mk s v pr g h r f =>
      rw [update_parent_spec, if_neg (by simpa [AStarNode.h, AStarNode.f] using hnlt)]

/-- A node with `g = 5`, `h = 0` (so `f = 5`). -/
def node_w1 : AStarNode := AStarNode.make [] false none 5 0 none

/-- A candidate parent with `g = 1`: the tentative `f` through it is 2. -/
def node_w2 : AStarNode := AStarNode.make [] false none 1 0 none

/-- Witness for C6: through `node_w2` the tentative cost 2 beats
`node_w1.f = 5`, the relaxed `g` becomes 2, and `f` does not increase. -/
theorem claim_C6_witness :
    (((node_w2.g + 1 : ℕ) : ℚ) + node_w1.h < node_w1.f)
    ∧ (node_w1.update_parent node_w2).g = node_w2.g + 1
    ∧ ([node_w2].foldl AStarNode.update_parent node_w1).f ≤ node_w1.f := by
  have hlt : ((node_w2.g + 1 : ℕ) : ℚ) + node_w1.h < node_w1.f := by
    norm_num [node_w1, node_w2, AStarNode.make, AStarNode.g, AStarNode.h, AStarNode.f]
  exact ⟨hlt, ((claim_C6 node_w1 node_w2 []).2.1 hlt).2.1,
    (claim_C6 node_w1 node_w2 [node_w2]).1⟩

/-! ### C1: the relaxation in `solve` never touches the stored node -/

/-- The heuristic value of the all-zero state (24/5, never needed in
normal form). -/
def hval : ℚ := (heuristic uniform0 5).getD 0

/-- A node for `uniform0` as stored in the visited index, reached through
a path of length 3 (`g = 3`, so `f = 3 + h`). -/
def node_stored : AStarNode := AStarNode.make uniform0 false none 3 hval none

/-- A cheaper expanding node `x` with `g = 1`: the tentative cost of
`uniform0` through it is `2 + h < 3 + h`. -/
def node_x : AStarNode := AStarNode.make uniform0 false none 1 hval (some [(Axis.x, 0, 1)])

/-- The successor that `get_next_states` builds from `node_x` for the
first move: parent already `node_x`, `g = node_x.g + 1`, `f = g + h`. -/
def node_u : AStarNode :=
  AStarNode.make uniform0 false (some node_x) (node_x.g + 1) hval (some [(Axis.x, 0, -1)])

/-- Claim C1 (the code bug, evaluated): expanding `node_x` offers the
already-visited state `uniform0` through a strictly cheaper path
(`2 + h < 3 + h = node_stored.f`), yet the successor step returns the
queue and the visited index unchanged — `node_stored` keeps `g = 3` and
its old parent — because `update_parent` is applied to the fresh
duplicate `node_u` (for which it is a no-op, its `f` already being the
tentative cost through `node_x`) and the duplicate is dropped. -/
theorem claim_C1 :
    get_next_states rot_fix 5 node_x.state node_x
      = some (all_moves.map (fun mv =>
          AStarNode.make uniform0 false (some node_x) (node_x.g + 1) hval (some [mv])))
    ∧ ((node_x.g + 1 : ℕ) : ℚ) + node_stored.h < node_stored.f
    ∧ expand_successors node_x ([node_stored], [node_stored]) [node_u]
        = ([node_stored], [node_stored])
    ∧ node_u.update_parent node_x = node_u := by
  refine ⟨rfl, ?_, rfl, update_parent_noop node_u node_x rfl⟩
  show ((2 : ℕ) : ℚ) + hval < ((3 : ℕ) : ℚ) + hval
  exact add_lt_add_right (by norm_num) hval


/-! ### Invariants of the main loop -/

lemma expand_nodup (x : AStarNode) :
    ∀ (U : List AStarNode) (QV : List AStarNode × List AStarNode),
      (QV.2.map AStarNode.state).Nodup →
      (((expand_successors x QV U).2).map AStarNode.state).Nodup := by
  intro U
  induction U with
  | nil => intro QV h; exact h
  | cons u rest ih =>
    intro QV h
    by_cases hv : is_visited QV.2 u
    · have hstep : expand_successors x QV (u :: rest) = expand_successors x QV rest := by
        simp [expand_successors, hv]
      rw [hstep]
      exact ih QV h
    · have hstep : expand_successors x QV (u :: rest)
          = expand_successors x (QV.1 ++ [u], QV.2 ++ [u]) rest := by
        simp [expand_successors, hv]
      rw [hstep]
      refine ih _ ?_
      have hall : ∀ v ∈ QV.2, ¬ v.state = u.state := by
        simpa [is_visited] using hv
      rw [List.map_append]
      refine List.Nodup.append h (by simp) ?_
      intro a ha hb
      simp only [List.map_cons, List.map_nil, List.mem_singleton] at hb
      obtain ⟨v, hvmem, hveq⟩ := List.mem_map.mp ha
      exact hall v hvmem (by rw [hveq, hb])

/-- Any property of the solver state preserved by the solved branch and
by the expansion branch is carried from the loop's entry to its result. -/
lemma solve_loop_invariant (rot : Move → CubeState → CubeState) (divisor : ℚ)
    (P : SolveState → Prop)
    (hsolved : ∀ (st : SolveState) (x : AStarNode) (Q2 : List AStarNode),
      P st → st.ended = false → get_best_node st.Q = some (x, Q2) →
      x.state = solvedState →
      P { st with Q := Q2, cube := x.state, rotations := path_nodes x, ended := true })
    (hexpand : ∀ (st : SolveState) (x : AStarNode) (Q2 U : List AStarNode),
      P st → st.ended = false → get_best_node st.Q = some (x, Q2) →
      ¬ x.state = solvedState → get_next_states rot divisor x.state x = some U →
      P { st with
            Q := (expand_successors x (Q2, st.visited_nodes) U).1
            visited_nodes := (expand_successors x (Q2, st.visited_nodes) U).2
            cube := x.state }) :
    ∀ (fuel : ℕ) (st r : SolveState),
      solve_loop rot divisor fuel st = some r → P st → P r := by
  intro fuel
  induction fuel with
  | zero => intro st r hr; simp [solve_loop] at hr
  | succ k ih =>
    intro st r hr hP
    rw [solve_loop] at hr
    by_cases hcond : st.ended = false ∧ 0 < st.Q.length
    · rw [if_pos hcond] at hr
      split at hr
      · exact absurd hr (by simp)
      · next x Q2 hbest =>
        split at hr
        · next hgoal =>
          simp only [Option.some.injEq] at hr
          subst hr
          exact hsolved st x Q2 hP hcond.1 hbest hgoal
        · next hgoal =>
          split at hr
          · exact absurd hr (by simp)
          · next U hU =>
            exact ih _ r hr (hexpand st x Q2 U hP hcond.1 hbest hgoal hU)
    · rw [if_neg hcond] at hr
      simp only [Option.some.injEq] at hr
      subst hr
      exact hP

/-- Claim C4: started on the canonical solved state, `solve` pops the
root, recognizes the goal at once, and returns an empty move list with
exactly one node in the visited index. -/
theorem claim_C4 (rot : Move → CubeState → CubeState) (divisor : ℚ) (fuel : ℕ)
    (hf : 1 ≤ fuel) :
    (solve rot divisor fuel solvedState).map
      (fun r => (r.rotations.length, r.visited_nodes.length)) = some (0, 1) := by
  cases fuel with
  | zero => omega
  | succ k => rfl

/-- Witness for C4 with one unit of fuel and the identity rotation
action. -/
theorem claim_C4_witness :
    1 ≤ 1 ∧ (solve rot_fix 5 1 solvedState).map
      (fun r => (r.rotations.length, r.visited_nodes.length)) = some (0, 1) :=
  ⟨le_refl 1, claim_C4 rot_fix 5 1 (le_refl 1)⟩

/-- Claim C5: on any run of `solve` the visited index never holds two
nodes with element-wise equal states — a successor is appended only when
no state-equal node is present. -/
theorem claim_C5 (rot : Move → CubeState → CubeState) (divisor : ℚ) (fuel : ℕ)
    (s0 : CubeState) (r : SolveState) (hr : solve rot divisor fuel s0 = some r) :
    (r.visited_nodes.map AStarNode.state).Nodup := by
  rw [solve, heuristic_eq] at hr
  simp only [Option.bind_eq_bind, Option.some_bind] at hr
  refine solve_loop_invariant rot divisor
    (fun st => (st.visited_nodes.map AStarNode.state).Nodup) ?_ ?_ fuel _ r hr (by simp)
  · intro st x Q2 hP _ _ _
    exact hP
  · intro st x Q2 U hP _ _ _ _
    exact expand_nodup x U (Q2, st.visited_nodes) hP

/-- Witness for C5 on a concrete terminating run. -/
theorem claim_C5_witness :
    (solve rot_fix 5 1 solvedState).elim False
      (fun r => (r.visited_nodes.map AStarNode.state).Nodup) := by
  cases hr : solve rot_fix 5 1 solvedState with
  | none =>
    have hs : (solve rot_fix 5 1 solvedState).isSome = true := rfl
    rw [hr] at hs
    simp at hs
  | some r =>
    simpa using claim_C5 rot_fix 5 1 solvedState r hr

/-- Claim C7, amended: when the frontier drains without the goal being
popped, `solve` terminates normally and returns the empty rotation list —
but that is the very value a successful run on an already-solved input
returns, so the exhaustion outcome is not distinguishable from that
success by the data handed to the caller (only console output differs). -/
theorem claim_C7 (rot : Move → CubeState → CubeState) (divisor : ℚ) (fuel : ℕ)
    (s0 : CubeState) (r : SolveState) (hr : solve rot divisor fuel s0 = some r)
    (hended : r.ended = false) : r.rotations = [] := by
  rw [solve, heuristic_eq] at hr
  simp only [Option.bind_eq_bind, Option.some_bind] at hr
  refine solve_loop_invariant rot divisor
    (fun st => st.ended = false → st.rotations = [])
    ?_ ?_ fuel _ r hr (fun _ => rfl) hended
  · intro st x Q2 hP _ _ _
    intro hcontra
    exact absurd hcontra (by simp)
  · intro st x Q2 U hP hend _ _ _
    intro _
    exact hP hend

/-- Counterexample for C7 as stated: an exhausted run (the all-zero
state, fixed by every rotation, drains the frontier in one expansion)
and a successful run on the solved state both return the rotation list
`[]` — the failure outcome is not distinguishable from this success. -/
theorem claim_C7_counterexample :
    (solve rot_fix 5 2 uniform0).map (fun r => (r.ended, r.rotations)) = some (false, [])
    ∧ (solve rot_fix 5 1 solvedState).map (fun r => (r.ended, r.rotations)) = some (true, []) :=
  ⟨rfl, rfl⟩

/-- Witness for the amended C7 on the exhausted run. -/
theorem claim_C7_witness :
    (solve rot_fix 5 2 uniform0).elim False (fun r => r.rotations = []) := by
  cases hr : solve rot_fix 5 2 uniform0 with
  | none =>
    have hs : (solve rot_fix 5 2 uniform0).isSome = true := rfl
    rw [hr] at hs
    simp at hs
  | some r =>
    have h2 : (solve rot_fix 5 2 uniform0).map (fun st => st.ended) = some false := rfl
    rw [hr] at h2
    simp only [Option.map_some', Option.some.injEq] at h2
    simpa using claim_C7 rot_fix 5 2 uniform0 r hr h2

/-- Claim C8, amended: the core performs no input validation at all —
`solve` accepts a facelet array that is not of length 54 (here the empty
array, rejected by `validState`), creates its root search node, expands
it and runs the search to exhaustion; no `InvalidState`/`InvalidMove`
rejection exists in the analysed core (the move set is generated
internally, so the core never receives a move to validate). -/
theorem claim_C8 :
    validState [] = false
    ∧ (solve rot_fix 5 2 []).map
        (fun r => (r.ended, r.rotations.length, r.visited_nodes.length, r.Q.length))
      = some (false, 0, 1, 0) :=
  ⟨by decide, rfl⟩

/-- Counterexample for C8 as stated: on the invalid (empty) facelet
array `solve` is not rejected before node creation — it builds the root
node (visited index of size 1) and returns a normal search result. -/
theorem claim_C8_counterexample :
    validState [] = false
    ∧ (solve rot_fix 5 2 []).map (fun r => r.visited_nodes.length) = some 1 :=
  ⟨by decide, rfl⟩

/-- Claim C10: `solve` writes each popped node's state into the
caller-supplied cube, so whenever it terminates through the solved
branch the cube is left holding the canonical solved state (not the
scrambled state it held on entry). -/
theorem claim_C10 (rot : Move → CubeState → CubeState) (divisor : ℚ) (fuel : ℕ)
    (s0 : CubeState) (r : SolveState) (hr : solve rot divisor fuel s0 = some r)
    (hended : r.ended = true) : r.cube = solvedState := by
  rw [solve, heuristic_eq] at hr
  simp only [Option.bind_eq_bind, Option.some_bind] at hr
  refine solve_loop_invariant rot divisor
    (fun st => st.ended = true → st.cube = solvedState)
    ?_ ?_ fuel _ r hr (fun hcontra => absurd hcontra (by simp)) hended
  · intro st x Q2 _ _ _ hgoal
    intro _
    exact hgoal
  · intro st x Q2 U _ hend _ _ _
    intro hcontra
    exact absurd hcontra (by simp [hend])

/-- Witness for C10 on a solved-branch run. -/
theorem claim_C10_witness :
    (solve rot_fix 5 1 solvedState).elim False (fun r => r.cube = solvedState) := by
  cases hr : solve rot_fix 5 1 solvedState with
  | none =>
    have hs : (solve rot_fix 5 1 solvedState).isSome = true := rfl
    rw [hr] at hs
    simp at hs
  | some r =>
    have h2 : (solve rot_fix 5 1 solvedState).map (fun st => st.ended) = some true := rfl
    rw [hr] at h2
    simp only [Option.map_some', Option.some.injEq] at h2
    simpa using claim_C10 rot_fix 5 1 solvedState r hr h2
